import Mathlib

/-!
# Verification of the Crypme technical-analysis scoring engine

A shallow embedding, over `ℚ`, of the scoring engine of the repository:

* the client-side indicator helpers (`calcRSI`, `calcEMA`, `calcMACDHist`,
  `calcVolumeProfile`);
* the Node service's `computeIndicators` (scorer and signal classifier),
  parameterized by the external `technicalindicators` npm library, which is
  abstracted as a record of functions;
* the `/api/futures/analyze` orchestration: per-symbol per-timeframe fan-out,
  aggregation into an average score, filtering, ranking and truncation.

JavaScript numbers are modelled as rationals, `null`/undefined indicator
entries as `Option ℚ`, and fallible candle fetches as `Except String`.
-/

namespace Crypme

attribute [local semireducible] Rat.mul Rat.add Rat.sub Rat.inv Rat.ofScientific

/-- Trading signal categories. -/
inductive Signal
  | strongBuy
  | buy
  | neutral
  | sell
  | strongSell
  deriving DecidableEq, Repr

/-- `mean` from the Node service: `0` on the empty list, otherwise sum/length. -/
def mean (arr : List ℚ) : ℚ :=
  if arr.length = 0 then 0 else arr.sum / arr.length

/-- The signal classification chain of `computeIndicators`, evaluated in source
order: `>20`, then `>10`, then `≤-20`, then `<-10`, else neutral. -/
def classifySignal (totalScore : ℚ) : Signal :=
  if totalScore > 20 then .strongBuy
  else if totalScore > 10 then .buy
  else if totalScore ≤ -20 then .strongSell
  else if totalScore < -10 then .sell
  else .neutral

/-- RSI sub-score as the spec states it. -/
def rsiScoreSpec (rsi : ℚ) : ℚ :=
  if rsi < 30 then ((30 - rsi) / 30) * 50
  else if rsi > 70 then -((rsi - 70) / 30) * 50
  else 0

/-- Volume sub-score as the spec states it. -/
def volumeScoreSpec (volumeRatio : ℚ) : ℚ :=
  if volumeRatio > 1.5 then 30
  else if volumeRatio > 1.0 then 15
  else if volumeRatio > 0.5 then 0
  else -15

/-- Moving-average position signal as the spec states it. -/
def maSignalSpec (price ma : ℚ) : ℚ :=
  if price > ma * 1.02 then 1
  else if price < ma * 0.98 then -1
  else 0

/-- One output row of the external `technicalindicators` `MACD.calculate`;
fields may be absent (`undefined`) in the library's output. -/
structure MacdOut where
  MACD : Option ℚ
  signal : Option ℚ
  histogram : Option ℚ
  deriving DecidableEq, Repr

/-- The external `technicalindicators` npm library, abstracted: `RSI.calculate`
with period 14 and `MACD.calculate` with periods 12/26/9 on a close series.
It is not repository code, so the orchestration results are proved for every
such library. -/
structure TILib where
  rsiCalc : List ℚ → List ℚ
  macdCalc : List ℚ → List MacdOut

/-- The flattened record returned by `computeIndicators`. -/
structure IndResult where
  rsi : ℚ
  macd : ℚ
  macdSignal : ℚ
  histogram : ℚ
  ma : ℚ
  maSignal : ℚ
  volume : ℚ
  volumeMa : ℚ
  volumeRatio : ℚ
  priceChange : ℚ
  currentPrice : ℚ
  totalScore : ℚ
  signal : Signal
  deriving DecidableEq, Repr

/-- The trailing 20-value volume moving average of `computeIndicators`:
the mean of the last 20 volumes, or of all of them when fewer than 20. -/
def volMaOf (volumes : List ℚ) : ℚ :=
  if 20 ≤ volumes.length then mean (volumes.drop (volumes.length - 20)) else mean volumes

/-- `computeIndicators(closes, volumes)` from the Node service. -/
def computeIndicators (lib : TILib) (closes volumes : List ℚ) : IndResult :=
  let rsiArr := lib.rsiCalc closes
  let rsi := if rsiArr.length = 0 then 50 else rsiArr.getLastD 0
  let macdArr := lib.macdCalc closes
  let lastMacd := if macdArr.length = 0 then ⟨some 0, some 0, some 0⟩
    else macdArr.getLastD ⟨some 0, some 0, some 0⟩
  let ma := if 20 ≤ closes.length then mean (closes.drop (closes.length - 20)) else mean closes
  let volMa := volMaOf volumes
  let currentVol := if volumes.length = 0 then 0 else volumes.getLastD 0
  let volumeRatio := if volMa = 0 then 1 else currentVol / volMa
  let oldPrice := if 2 ≤ closes.length then closes.getD (closes.length - 2) 0
    else closes.getD (closes.length - 1) 0
  let newPrice := if closes.length = 0 then 0 else closes.getLastD 0
  let priceChange := if oldPrice = 0 then 0 else ((newPrice - oldPrice) / oldPrice) * 100
  let maSignal : ℚ := if newPrice > ma * 1.02 then 1 else if newPrice < ma * 0.98 then -1 else 0
  let rsiScore := if rsi < 30 then ((30 - rsi) / 30) * 50
    else if rsi > 70 then -((rsi - 70) / 30) * 50 else 0
  let macdScore := (lastMacd.histogram.getD 0) * 10
  let priceScore := priceChange * 2
  let volumeScore : ℚ := if volumeRatio > 1.5 then 30
    else if volumeRatio > 1.0 then 15
    else if volumeRatio > 0.5 then 0
    else -15
  let maScore := maSignal * 20
  let totalScore := rsiScore * 0.25 + macdScore * 0.25 + priceScore * 0.25 +
    volumeScore * 0.15 + maScore * 0.1
  { rsi := rsi
    macd := lastMacd.MACD.getD 0
    macdSignal := lastMacd.signal.getD 0
    histogram := lastMacd.histogram.getD 0
    ma := ma
    maSignal := maSignal
    volume := currentVol
    volumeMa := volMa
    volumeRatio := volumeRatio
    priceChange := priceChange
    currentPrice := newPrice
    totalScore := totalScore
    signal := classifySignal totalScore }

/-- The total-score decomposition shared by several results below. -/
theorem totalScore_decomp (lib : TILib) (closes volumes : List ℚ) :
    (computeIndicators lib closes volumes).totalScore =
      rsiScoreSpec (computeIndicators lib closes volumes).rsi * 0.25 +
      ((computeIndicators lib closes volumes).histogram * 10) * 0.25 +
      ((computeIndicators lib closes volumes).priceChange * 2) * 0.25 +
      volumeScoreSpec (computeIndicators lib closes volumes).volumeRatio * 0.15 +
      (maSignalSpec (computeIndicators lib closes volumes).currentPrice
        (computeIndicators lib closes volumes).ma * 20) * 0.1 := by
  simp only [computeIndicators, rsiScoreSpec, volumeScoreSpec, maSignalSpec]

/-- C1: for every indicator snapshot, the scorer computes
`totalScore = rsiScore*0.25 + macdScore*0.25 + priceScore*0.25 +
volumeScore*0.15 + maScore*0.10`, with `rsiScore` the piecewise RSI formula,
`macdScore = histogram*10`, `priceScore = priceChangePercent*2`, the stepped
volume score, and `maScore = maSignal*20` where `maSignal` compares the price
against `MA*1.02` and `MA*0.98`. -/
theorem scorer_totalScore_formula (lib : TILib) (closes volumes : List ℚ) :
    (computeIndicators lib closes volumes).totalScore =
      rsiScoreSpec (computeIndicators lib closes volumes).rsi * 0.25 +
      ((computeIndicators lib closes volumes).histogram * 10) * 0.25 +
      ((computeIndicators lib closes volumes).priceChange * 2) * 0.25 +
      volumeScoreSpec (computeIndicators lib closes volumes).volumeRatio * 0.15 +
      (maSignalSpec (computeIndicators lib closes volumes).currentPrice
        (computeIndicators lib closes volumes).ma * 20) * 0.1 :=
  totalScore_decomp lib closes volumes

/-- C2: the signal chain evaluates `>20 → STRONG_BUY`, `>10 → BUY`,
`≤-20 → STRONG_SELL`, `<-10 → SELL`, else `NEUTRAL`, in that order with first
match winning; in particular a score of exactly 20 classifies as BUY and a
score of exactly -20 classifies as STRONG_SELL. -/
theorem classifySignal_order_and_boundaries :
    (∀ t : ℚ, classifySignal t =
      if t > 20 then Signal.strongBuy
      else if t > 10 then Signal.buy
      else if t ≤ -20 then Signal.strongSell
      else if t < -10 then Signal.sell
      else Signal.neutral) ∧
    classifySignal 20 = Signal.buy ∧
    classifySignal (-20) = Signal.strongSell := by
  refine ⟨fun t => rfl, ?_, ?_⟩ <;> decide

/-! ## RSI (client-side `calcRSI`, Wilder smoothing) -/

/-- The delta read at loop index `i ≥ 1` of `calcRSI`: `values[i] - values[i-1]`. -/
def diffAt (values : List ℚ) (i : ℕ) : ℚ :=
  values.getD i 0 - values.getD (i - 1) 0

/-- Initial summed gain of `calcRSI`, over loop indices `1..period`:
positive deltas are added to the gain. -/
def initGain (values : List ℚ) (period : ℕ) : ℚ :=
  ((List.range period).map (fun j =>
    if diffAt values (j + 1) > 0 then diffAt values (j + 1) else 0)).sum

/-- Initial summed loss of `calcRSI`, over loop indices `1..period`:
non-positive deltas contribute their negation to the loss. -/
def initLoss (values : List ℚ) (period : ℕ) : ℚ :=
  ((List.range period).map (fun j =>
    if diffAt values (j + 1) > 0 then 0 else -diffAt values (j + 1))).sum

/-- The pair `(avgGain, avgLoss)` held by `calcRSI` when it writes the output at
index `period + k`: the seed averages at `k = 0`, then the Wilder recurrence
`avg = (avg*(period-1) + current) / period`. -/
def rsiAvgs (values : List ℚ) (period : ℕ) : ℕ → ℚ × ℚ
  | 0 => (initGain values period / period, initLoss values period / period)
  | k + 1 =>
    let prev := rsiAvgs values period k
    let d := diffAt values (period + k + 1)
    let up := if d > 0 then d else 0
    let down := if d < 0 then -d else 0
    ((prev.1 * ((period : ℚ) - 1) + up) / period,
     (prev.2 * ((period : ℚ) - 1) + down) / period)

/-- The RSI output value written from an `(avgGain, avgLoss)` pair:
`100` when the average loss is zero, else `100 - 100/(1 + avgGain/avgLoss)`. -/
def rsiVal (gl : ℚ × ℚ) : ℚ :=
  if gl.2 = 0 then 100 else 100 - 100 / (1 + gl.1 / gl.2)

/-- `calcRSI(values, period)`: `null` before index `period`, then the Wilder RSI
per index. (The imperative source only produces in-range outputs when
`values.length > period`; indices are modelled positionally.) -/
def calcRSI (values : List ℚ) (period : ℕ) : List (Option ℚ) :=
  (List.range values.length).map fun i =>
    if i < period then none else some (rsiVal (rsiAvgs values period (i - period)))

theorem calcRSI_getD (values : List ℚ) (period i : ℕ)
    (hp : period ≤ i) (hi : i < values.length) :
    (calcRSI values period).getD i none =
      some (rsiVal (rsiAvgs values period (i - period))) := by
  simp [calcRSI, List.getD_eq_getElem?_getD, List.getElem?_range, hi, Nat.not_lt.mpr hp]

/-- C5: whenever the running `avgLoss` of `calcRSI` is zero at a defined index
(in particular on a flat series, where every delta is zero), the RSI written at
that index is exactly 100. -/
theorem calcRSI_eq_100_of_avgLoss_zero (values : List ℚ) (period i : ℕ)
    (hp : period ≤ i) (hi : i < values.length)
    (h0 : (rsiAvgs values period (i - period)).2 = 0) :
    (calcRSI values period).getD i none = some 100 := by
  rw [calcRSI_getD values period i hp hi, rsiVal, if_pos h0]

theorem diffAt_replicate (n : ℕ) (c : ℚ) (i : ℕ) (h2 : i < n) :
    diffAt (List.replicate n c) i = 0 := by
  have h3 : i - 1 < n := lt_of_le_of_lt (Nat.sub_le i 1) h2
  unfold diffAt
  rw [List.getD_eq_getElem?_getD, List.getD_eq_getElem?_getD,
    List.getElem?_replicate_of_lt h2, List.getElem?_replicate_of_lt h3]
  simp

theorem initGain_replicate (n p : ℕ) (c : ℚ) (hp : p < n) :
    initGain (List.replicate n c) p = 0 := by
  apply List.sum_eq_zero
  intro x hx
  simp only [List.mem_map, List.mem_range] at hx
  obtain ⟨j, hj, rfl⟩ := hx
  rw [diffAt_replicate n c (j + 1) (by omega)]
  norm_num

theorem initLoss_replicate (n p : ℕ) (c : ℚ) (hp : p < n) :
    initLoss (List.replicate n c) p = 0 := by
  apply List.sum_eq_zero
  intro x hx
  simp only [List.mem_map, List.mem_range] at hx
  obtain ⟨j, hj, rfl⟩ := hx
  rw [diffAt_replicate n c (j + 1) (by omega)]
  norm_num

theorem rsiAvgs_replicate (n p : ℕ) (c : ℚ) (hp : p < n) :
    ∀ k, p + k < n → rsiAvgs (List.replicate n c) p k = (0, 0) := by
  intro k
  induction k with
  | zero =>
    intro _
    unfold rsiAvgs
    rw [initGain_replicate n p c hp, initLoss_replicate n p c hp]
    simp
  | succ k ih =>
    intro hk
    have hk' : p + k < n := by omega
    unfold rsiAvgs
    rw [ih hk', diffAt_replicate n c (p + k + 1) hk]
    norm_num

/-- Witness for C5: a flat series of 20 identical closes has zero average loss
at the last index, and `calcRSI` reports RSI 100 there. -/
theorem calcRSI_eq_100_of_avgLoss_zero_witness :
    (calcRSI (List.replicate 20 5) 14).getD 19 none = some 100 :=
  calcRSI_eq_100_of_avgLoss_zero (List.replicate 20 5) 14 19
    (by norm_num) (by simp)
    (by rw [show (19 - 14 : ℕ) = 5 from rfl,
            rsiAvgs_replicate 20 14 5 (by norm_num) 5 (by norm_num)])

theorem initGain_nonneg (values : List ℚ) (period : ℕ) : 0 ≤ initGain values period := by
  apply List.sum_nonneg
  intro x hx
  simp only [List.mem_map, List.mem_range] at hx
  obtain ⟨j, -, rfl⟩ := hx
  split <;> [linarith; exact le_refl 0]

theorem initLoss_nonneg (values : List ℚ) (period : ℕ) : 0 ≤ initLoss values period := by
  apply List.sum_nonneg
  intro x hx
  simp only [List.mem_map, List.mem_range] at hx
  obtain ⟨j, -, rfl⟩ := hx
  split <;> [exact le_refl 0; linarith [not_lt.mp (by assumption : ¬ diffAt values (j+1) > 0)]]

theorem rsiAvgs_nonneg (values : List ℚ) (period : ℕ) :
    ∀ k, 0 ≤ (rsiAvgs values period k).1 ∧ 0 ≤ (rsiAvgs values period k).2 := by
  intro k
  induction k with
  | zero =>
    exact ⟨div_nonneg (initGain_nonneg values period) (by positivity),
           div_nonneg (initLoss_nonneg values period) (by positivity)⟩
  | succ k ih =>
    rcases Nat.eq_zero_or_pos period with hper | hper
    · subst hper
      simp [rsiAvgs]
    · have h1 : (0:ℚ) ≤ (period : ℚ) - 1 := by
        have h2 : (1:ℚ) ≤ (period : ℚ) := by exact_mod_cast hper
        linarith
      have hup : (0:ℚ) ≤ if diffAt values (period + k + 1) > 0
          then diffAt values (period + k + 1) else 0 := by
        split <;> [linarith; exact le_refl 0]
      have hdown : (0:ℚ) ≤ if diffAt values (period + k + 1) < 0
          then -diffAt values (period + k + 1) else 0 := by
        split <;> [linarith; exact le_refl 0]
      exact ⟨div_nonneg (add_nonneg (mul_nonneg ih.1 h1) hup) (by positivity),
             div_nonneg (add_nonneg (mul_nonneg ih.2 h1) hdown) (by positivity)⟩

theorem rsiVal_bounds (g l : ℚ) (hg : 0 ≤ g) (hl : 0 ≤ l) :
    0 ≤ rsiVal (g, l) ∧ rsiVal (g, l) ≤ 100 := by
  unfold rsiVal
  dsimp only
  split
  · exact ⟨by norm_num, le_refl 100⟩
  · rename_i hne
    have hlpos : 0 < l := lt_of_le_of_ne hl (Ne.symm hne)
    have hr : (0:ℚ) ≤ g / l := div_nonneg hg hl
    have hden : (0:ℚ) < 1 + g / l := by linarith
    have hx : (0:ℚ) < 100 / (1 + g / l) := by positivity
    have hx100 : 100 / (1 + g / l) ≤ 100 := by
      apply div_le_self (by norm_num)
      linarith
    constructor <;> linarith

/-- C8: every defined entry of `calcRSI(values, 14)` lies in `[0, 100]`. -/
theorem calcRSI_mem_unit_interval (values : List ℚ) (i : ℕ) (r : ℚ)
    (h : (calcRSI values 14).getD i none = some r) : 0 ≤ r ∧ r ≤ 100 := by
  have hi : i < values.length := by
    by_contra hge
    rw [calcRSI, List.getD_eq_getElem?_getD, List.getElem?_map,
      List.getElem?_eq_none (by simpa [Nat.not_lt] using hge)] at h
    simp at h
  by_cases hp : i < 14
  · rw [calcRSI, List.getD_eq_getElem?_getD, List.getElem?_map,
      List.getElem?_range hi] at h
    simp [hp] at h
  · rw [calcRSI_getD values 14 i (Nat.not_lt.mp hp) hi] at h
    have hb := rsiVal_bounds (rsiAvgs values 14 (i - 14)).1 (rsiAvgs values 14 (i - 14)).2
      (rsiAvgs_nonneg values 14 (i - 14)).1 (rsiAvgs_nonneg values 14 (i - 14)).2
    have hz : r = rsiVal (rsiAvgs values 14 (i - 14)) := by
      injection h with h
      exact h.symm
    rw [hz]
    simpa using hb

/-- Witness for C8: on a flat series of 15 ones, `calcRSI` reports 100 at index
14, a value within `[0, 100]`. -/
theorem calcRSI_mem_unit_interval_witness : 0 ≤ (100:ℚ) ∧ (100:ℚ) ≤ 100 :=
  calcRSI_mem_unit_interval (List.replicate 15 1) 14 100 (by
    rw [calcRSI_getD (List.replicate 15 1) 14 14 (le_refl 14) (by simp),
      show (14 - 14 : ℕ) = 0 from rfl,
      rsiAvgs_replicate 15 14 1 (by norm_num) 0 (by norm_num)]
    rfl)

/-! ## EMA and the MACD histogram (client-side `calcEMA`, `calcMACDHist`) -/

theorem range_map_getD {α : Type} (n : ℕ) (f : ℕ → Option α) (i : ℕ) (hi : i < n) :
    ((List.range n).map f).getD i none = f i := by
  simp [List.getD_eq_getElem?_getD, List.getElem?_range, hi]

theorem range_map_getD_ge {α : Type} (n : ℕ) (f : ℕ → Option α) (i : ℕ) (hi : n ≤ i) :
    ((List.range n).map f).getD i none = none := by
  rw [List.getD_eq_getElem?_getD, List.getElem?_eq_none]
  · rfl
  · simpa using hi

/-- The running EMA value written by `calcEMA` at index `period - 1 + k`: the
SMA of the first `period` values as the seed at `k = 0`, then
`ema = value*k + ema*(1-k)` with smoothing constant `k = 2/(period+1)`. -/
def emaFrom (values : List ℚ) (period : ℕ) : ℕ → ℚ
  | 0 => (values.take period).sum / period
  | k + 1 => values.getD (period + k) 0 * (2 / ((period : ℚ) + 1)) +
      emaFrom values period k * (1 - 2 / ((period : ℚ) + 1))

/-- `calcEMA(values, period)`: `null` strictly before index `period - 1`, the
seeded exponential average from there on. -/
def calcEMA (values : List ℚ) (period : ℕ) : List (Option ℚ) :=
  (List.range values.length).map fun i =>
    if i < period - 1 then none else some (emaFrom values period (i - (period - 1)))

/-- The per-index MACD line of `calcMACDHist`: fast EMA minus slow EMA, `null`
where either is undefined. -/
def macdLine (values : List ℚ) (fast slow : ℕ) : List (Option ℚ) :=
  (List.range values.length).map fun i =>
    match (calcEMA values fast).getD i none, (calcEMA values slow).getD i none with
    | some a, some b => some (a - b)
    | _, _ => none

/-- The signal line of `calcMACDHist`: the EMA of the macd line with undefined
points replaced by 0. -/
def signalLine (values : List ℚ) (fast slow signal : ℕ) : List (Option ℚ) :=
  calcEMA ((macdLine values fast slow).map (fun v => v.getD 0)) signal

/-- `calcMACDHist(values, fast, slow, signal)`: macd minus signal where both
are defined, `null` elsewhere. -/
def calcMACDHist (values : List ℚ) (fast slow signal : ℕ) : List (Option ℚ) :=
  (List.range values.length).map fun i =>
    match (macdLine values fast slow).getD i none,
        (signalLine values fast slow signal).getD i none with
    | some v, some s => some (v - s)
    | _, _ => none

theorem calcEMA_getD (values : List ℚ) (period i : ℕ) (hi : i < values.length) :
    (calcEMA values period).getD i none =
      if i < period - 1 then none
      else some (emaFrom values period (i - (period - 1))) := by
  unfold calcEMA
  rw [show values.length = ((List.range values.length).length) from (List.length_range _).symm]
  rw [range_map_getD _ _ i (by simpa using hi)]

theorem macdLine_getD (values : List ℚ) (fast slow i : ℕ) (hi : i < values.length) :
    (macdLine values fast slow).getD i none =
      match (calcEMA values fast).getD i none, (calcEMA values slow).getD i none with
      | some a, some b => some (a - b)
      | _, _ => none := by
  unfold macdLine
  rw [range_map_getD _ _ i hi]

theorem macdLine_length (values : List ℚ) (fast slow : ℕ) :
    (macdLine values fast slow).length = values.length := by
  simp [macdLine]

/-- C6: at every index where the MACD line (fast EMA minus slow EMA) is
defined, the signal line (EMA(9) of the zero-filled macd line) is defined as
well, and the histogram equals the macd value minus the signal value. -/
theorem calcMACDHist_eq_macd_sub_signal (values : List ℚ) (i : ℕ) (m : ℚ)
    (h : (macdLine values 12 26).getD i none = some m) :
    ∃ s, (signalLine values 12 26 9).getD i none = some s ∧
      (calcMACDHist values 12 26 9).getD i none = some (m - s) := by
  have hi : i < values.length := by
    by_contra hge
    rw [macdLine, range_map_getD_ge _ _ i (Nat.not_lt.mp hge)] at h
    exact Option.noConfusion h
  rw [macdLine_getD values 12 26 i hi] at h
  have h26 : ¬ i < 26 - 1 := by
    intro hlt
    rw [calcEMA_getD values 26 i hi, if_pos hlt] at h
    rcases hfast : (calcEMA values 12).getD i none with _ | a <;> rw [hfast] at h <;>
      exact Option.noConfusion h
  have hsiglen : i < ((macdLine values 12 26).map (fun v => v.getD 0)).length := by
    simpa [macdLine_length] using hi
  have hsig : (signalLine values 12 26 9).getD i none =
      some (emaFrom ((macdLine values 12 26).map (fun v => v.getD 0)) 9 (i - (9 - 1))) := by
    rw [signalLine, calcEMA_getD _ 9 i hsiglen, if_neg (by omega)]
  refine ⟨emaFrom ((macdLine values 12 26).map (fun v => v.getD 0)) 9 (i - (9 - 1)),
    hsig, ?_⟩
  rw [calcMACDHist, range_map_getD _ _ i hi]
  rw [macdLine_getD values 12 26 i hi, h, hsig]

theorem emaFrom_replicate (n p : ℕ) (c : ℚ) (hp : 0 < p) :
    ∀ k, p + k ≤ n → emaFrom (List.replicate n c) p k = c := by
  intro k
  induction k with
  | zero =>
    intro hk
    unfold emaFrom
    rw [List.take_replicate, Nat.min_eq_left (by omega), List.sum_replicate]
    have hpq : ((p : ℚ)) ≠ 0 := by positivity
    rw [nsmul_eq_mul]
    field_simp
  | succ k ih =>
    intro hk
    unfold emaFrom
    rw [ih (by omega), List.getD_eq_getElem?_getD,
      List.getElem?_replicate_of_lt (show p + k < n by omega)]
    simp
    ring

/-- Witness for C6: on 26 identical closes the MACD line is defined at index
25 with value 0, the signal line is defined there, and the histogram is their
difference. -/
theorem calcMACDHist_eq_macd_sub_signal_witness :
    ∃ s, (signalLine (List.replicate 26 1) 12 26 9).getD 25 none = some s ∧
      (calcMACDHist (List.replicate 26 1) 12 26 9).getD 25 none = some (0 - s) :=
  calcMACDHist_eq_macd_sub_signal (List.replicate 26 1) 25 0 (by
    rw [macdLine_getD (List.replicate 26 1) 12 26 25 (by simp),
      calcEMA_getD _ 12 25 (by simp), calcEMA_getD _ 26 25 (by simp),
      if_neg (by omega), if_neg (by omega),
      emaFrom_replicate 26 12 1 (by norm_num) (25 - (12 - 1)) (by norm_num),
      emaFrom_replicate 26 26 1 (by norm_num) (25 - (26 - 1)) (by norm_num)]
    norm_num)

/-! ## Volume Profile POC (client-side `calcVolumeProfile`) -/

/-- `Math.min(...closes)` over a non-empty list (0 as a dummy on empty input,
which `calcVolumeProfile` never reaches). -/
def listMin : List ℚ → ℚ
  | [] => 0
  | x :: xs => xs.foldl min x

/-- `Math.max(...closes)`, same convention as `listMin`. -/
def listMax : List ℚ → ℚ
  | [] => 0
  | x :: xs => xs.foldl max x

/-- `(max - min) / bins || 1`: the bucket width, replaced by 1 when zero. -/
def pocStep (closes : List ℚ) (bins : ℕ) : ℚ :=
  if (listMax closes - listMin closes) / bins = 0 then 1
  else (listMax closes - listMin closes) / bins

/-- Bucket index of one close: `min(bins-1, max(0, floor((close-min)/step)))`. -/
def bucketIdx (mn step : ℚ) (bins : ℕ) (c : ℚ) : ℕ :=
  min (bins - 1) (max 0 (Int.floor ((c - mn) / step))).toNat

/-- The per-bucket accumulated volumes of `calcVolumeProfile`. -/
def fillBuckets (closes volumes : List ℚ) (mn step : ℚ) (bins : ℕ) : List ℚ :=
  (List.range closes.length).foldl
    (fun b i =>
      let idx := bucketIdx mn step bins (closes.getD i 0)
      b.set idx (b.getD idx 0 + volumes.getD i 0))
    (List.replicate bins 0)

/-- The buckets as built inside `calcVolumeProfile`. -/
def pocBuckets (closes volumes : List ℚ) (bins : ℕ) : List ℚ :=
  fillBuckets closes volumes (listMin closes) (pocStep closes bins) bins

/-- The winning bucket: scan indices `1..bins-1` keeping the first index whose
accumulated volume strictly exceeds the current best, starting from 0. -/
def pocIdxOf (buckets : List ℚ) (bins : ℕ) : ℕ :=
  (List.range' 1 (bins - 1)).foldl
    (fun p i => if buckets.getD i 0 > buckets.getD p 0 then i else p) 0

/-- `calcVolumeProfile(closes, volumes, bins)`: `null` POC on an empty series,
otherwise `min + pocIdx * step`. -/
def calcVolumeProfile (closes volumes : List ℚ) (bins : ℕ) : Option ℚ :=
  if closes.length = 0 then none
  else some (listMin closes +
    (pocIdxOf (pocBuckets closes volumes bins) bins : ℚ) * pocStep closes bins)

/-- Modelled from the spec: §4.1's Volume Profile POC — the same range
partitioning and volume accumulation, but returning the midpoint-mapped price
of the bucket with maximum accumulated volume, as the spec's words require. -/
def pocPriceMidpointSpec (closes volumes : List ℚ) (bins : ℕ) : Option ℚ :=
  if closes.length = 0 then none
  else some (listMin closes +
    ((pocIdxOf (pocBuckets closes volumes bins) bins : ℚ) + 1/2) * pocStep closes bins)

theorem foldl_argmax (b : ℕ → ℚ) :
    ∀ (l : List ℕ) (p : ℕ),
      (l.foldl (fun p i => if b i > b p then i else p) p = p ∨
        l.foldl (fun p i => if b i > b p then i else p) p ∈ l) ∧
      b p ≤ b (l.foldl (fun p i => if b i > b p then i else p) p) ∧
      ∀ i ∈ l, b i ≤ b (l.foldl (fun p i => if b i > b p then i else p) p) := by
  intro l
  induction l with
  | nil => exact fun p => ⟨Or.inl rfl, le_refl _, fun i hi => absurd hi (List.not_mem_nil i)⟩
  | cons x xs ih =>
    intro p
    simp only [List.foldl_cons]
    by_cases hx : b x > b p
    · rw [if_pos hx]
      rcases ih x with ⟨hmem, hle, hall⟩
      refine ⟨?_, le_trans (le_of_lt hx) hle, ?_⟩
      · rcases hmem with h | h
        · exact Or.inr (by rw [h]; exact List.mem_cons_self x xs)
        · exact Or.inr (List.mem_cons_of_mem x h)
      · intro i hi
        rcases List.mem_cons.mp hi with rfl | hi
        · exact hle
        · exact hall i hi
    · rw [if_neg hx]
      rcases ih p with ⟨hmem, hle, hall⟩
      refine ⟨?_, hle, ?_⟩
      · rcases hmem with h | h
        · exact Or.inl h
        · exact Or.inr (List.mem_cons_of_mem x h)
      · intro i hi
        rcases List.mem_cons.mp hi with rfl | hi
        · exact le_trans (not_lt.mp hx) hle
        · exact hall i hi

theorem pocIdxOf_lt (buckets : List ℚ) (bins : ℕ) (hbins : 0 < bins) :
    pocIdxOf buckets bins < bins := by
  rw [pocIdxOf]
  rcases (foldl_argmax (fun i => buckets.getD i 0) (List.range' 1 (bins - 1)) 0).1 with h | h
  · rw [h]; exact hbins
  · have h2 := List.mem_range'_1.mp h
    omega

theorem pocIdxOf_max (buckets : List ℚ) (bins : ℕ) :
    ∀ j < bins, buckets.getD j 0 ≤ buckets.getD (pocIdxOf buckets bins) 0 := by
  intro j hj
  rcases foldl_argmax (fun i => buckets.getD i 0) (List.range' 1 (bins - 1)) 0
    with ⟨-, hle, hall⟩
  rcases Nat.eq_zero_or_pos j with rfl | hjpos
  · exact hle
  · exact hall j (List.mem_range'_1.mpr ⟨hjpos, by omega⟩)

set_option maxRecDepth 100000 in
/-- Counterexample to C9 as stated: on closes `[0, 10]` with volumes `[1, 2]`
and 20 bins, the code returns the lower edge `19/2` of the winning bucket,
while the spec's midpoint-mapped price of that bucket is `39/4`. -/
theorem calcVolumeProfile_midpoint_counterexample :
    calcVolumeProfile [0, 10] [1, 2] 20 = some (19/2) ∧
    pocPriceMidpointSpec [0, 10] [1, 2] 20 = some (39/4) ∧
    (19/2 : ℚ) ≠ 39/4 := by
  refine ⟨?_, ?_, by norm_num⟩ <;> decide

/-- C9 amended: for a non-empty close series the POC price returned is the
LOWER-EDGE-mapped price `min + pocIdx*step` of the (first) bucket with maximum
accumulated volume over the 20 equal-width buckets of `[min, max]`; for the
empty series the POC is `null`. -/
theorem calcVolumeProfile_poc_lower_edge (closes volumes : List ℚ) (bins : ℕ)
    (hne : closes.length ≠ 0) (hbins : 0 < bins) :
    calcVolumeProfile closes volumes bins =
      some (listMin closes +
        (pocIdxOf (pocBuckets closes volumes bins) bins : ℚ) * pocStep closes bins) ∧
    pocIdxOf (pocBuckets closes volumes bins) bins < bins ∧
    (∀ j < bins, (pocBuckets closes volumes bins).getD j 0 ≤
      (pocBuckets closes volumes bins).getD
        (pocIdxOf (pocBuckets closes volumes bins) bins) 0) ∧
    (∀ vols : List ℚ, calcVolumeProfile [] vols bins = none) := by
  refine ⟨?_, pocIdxOf_lt _ bins hbins, pocIdxOf_max _ bins, fun vols => rfl⟩
  rw [calcVolumeProfile, if_neg hne]

/-- Witness for the amended C9, at closes `[0, 10]`, volumes `[1, 2]`, 20 bins. -/
theorem calcVolumeProfile_poc_lower_edge_witness :
    calcVolumeProfile [0, 10] [1, 2] 20 =
      some (listMin [0, 10] +
        (pocIdxOf (pocBuckets [0, 10] [1, 2] 20) 20 : ℚ) * pocStep [0, 10] 20) ∧
    pocIdxOf (pocBuckets [0, 10] [1, 2] 20) 20 < 20 ∧
    (∀ j < 20, (pocBuckets [0, 10] [1, 2] 20).getD j 0 ≤
      (pocBuckets [0, 10] [1, 2] 20).getD
        (pocIdxOf (pocBuckets [0, 10] [1, 2] 20) 20) 0) ∧
    (∀ vols : List ℚ, calcVolumeProfile [] vols 20 = none) :=
  calcVolumeProfile_poc_lower_edge [0, 10] [1, 2] 20 (by decide) (by decide)

/-! ## The `/api/futures/analyze` orchestration -/

/-- One kline row `[time, open, high, low, close, volume]` as mapped by the
service (`openPrice` because `open` is reserved in Lean). -/
structure KlineRow where
  time : ℚ
  openPrice : ℚ
  high : ℚ
  low : ℚ
  close : ℚ
  volume : ℚ
  deriving DecidableEq, Repr

/-- The flattened per-timeframe analysis object pushed into `tfResults` (the
wall-clock ISO timestamp string is omitted: it is I/O outside the core). -/
structure Analysis where
  symbol : String
  timeframe : String
  current_price : ℚ
  price_change : ℚ
  rsi : ℚ
  macd : ℚ
  macd_signal : ℚ
  macd_hist : ℚ
  ma : ℚ
  ma_signal : ℚ
  volume : ℚ
  volume_ma : ℚ
  volume_ratio : ℚ
  total_score : ℚ
  signal : Signal
  deriving DecidableEq, Repr

/-- Build the per-timeframe analysis object from an indicator result. -/
def mkAnalysis (sym tf : String) (ind : IndResult) : Analysis :=
  { symbol := sym
    timeframe := tf
    current_price := ind.currentPrice
    price_change := ind.priceChange
    rsi := ind.rsi
    macd := ind.macd
    macd_signal := ind.macdSignal
    macd_hist := ind.histogram
    ma := ind.ma
    ma_signal := ind.maSignal
    volume := ind.volume
    volume_ma := ind.volumeMa
    volume_ratio := ind.volumeRatio
    total_score := ind.totalScore
    signal := ind.signal }

/-- JS object assignment `tfResults[tf] = analysis`: keys keep insertion order,
an existing key is overwritten in place. -/
def insertTF (m : List (String × Analysis)) (k : String) (v : Analysis) :
    List (String × Analysis) :=
  if m.any (fun p => p.1 = k) then m.map (fun p => if p.1 = k then (k, v) else p)
  else m ++ [(k, v)]

/-- The per-symbol timeframe loop of `/api/futures/analyze`: fetch klines for
each timeframe label; an empty candle list is skipped (`continue`); a rejected
fetch propagates as an exception, exactly as the unguarded `await fetchKlines`
does in the source. -/
def analyzeTFs (lib : TILib) (fetch : String → String → Except String (List KlineRow))
    (sym : String) : List String → List (String × Analysis) →
      Except String (List (String × Analysis))
  | [], acc => .ok acc
  | tf :: rest, acc =>
    match fetch sym tf with
    | .error e => .error e
    | .ok kl =>
      if kl.length = 0 then analyzeTFs lib fetch sym rest acc
      else
        let closes := kl.map (fun k => k.close)
        let volumes := kl.map (fun k => k.volume)
        let ind := computeIndicators lib closes volumes
        analyzeTFs lib fetch sym rest (insertTF acc tf (mkAnalysis sym tf ind))

/-- One entry of the `analyzed` array of the analyze endpoint. -/
structure SymbolAnalysis where
  symbol : String
  volume_24h : ℚ
  timeframes : List (String × Analysis)
  avg_score : ℚ
  deriving DecidableEq, Repr

/-- The per-symbol fan-out loop of `/api/futures/analyze`: a symbol with an
empty `tfResults` is dropped; otherwise its average score is the sum of the
per-timeframe total scores divided by the number of analyzed timeframes.
An exception from any unit of work propagates, aborting the loop. -/
def analyzeBatch (lib : TILib) (fetch : String → String → Except String (List KlineRow))
    (tfs : List String) : List (String × ℚ) → Except String (List SymbolAnalysis)
  | [] => .ok []
  | (sym, vol) :: rest =>
    match analyzeTFs lib fetch sym tfs [] with
    | .error e => .error e
    | .ok tfr =>
      match analyzeBatch lib fetch tfs rest with
      | .error e => .error e
      | .ok tail =>
        if tfr.length = 0 then .ok tail
        else .ok ({ symbol := sym
                    volume_24h := vol
                    timeframes := tfr
                    avg_score := (tfr.map (fun p => p.2.total_score)).sum / tfr.length } :: tail)

/-- Whether a (symbol, timeframe) unit yields a usable series: the fetch
succeeded with a non-empty kline list. -/
def usable (fetch : String → String → Except String (List KlineRow))
    (sym tf : String) : Bool :=
  match fetch sym tf with
  | .ok kl => decide (kl.length ≠ 0)
  | .error _ => false

/-- The analysis object a usable unit contributes. -/
def fetchedAnalysis (lib : TILib)
    (fetch : String → String → Except String (List KlineRow))
    (sym tf : String) : Analysis :=
  match fetch sym tf with
  | .ok kl => mkAnalysis sym tf
      (computeIndicators lib (kl.map (fun k => k.close)) (kl.map (fun k => k.volume)))
  | .error _ => mkAnalysis sym tf (computeIndicators lib [] [])

/-- The FILTER/RANK tail of the analyze endpoint: optional min-score filter
(`avg_score >= ms` kept), stable sort by `avg_score` descending, truncation to
`limit`; `total` is the length after filtering, before truncation. -/
def filterRank (analyzed : List SymbolAnalysis) (minScore : Option ℚ) (limit : ℕ) :
    List SymbolAnalysis × ℕ :=
  let filtered := match minScore with
    | none => analyzed
    | some ms => analyzed.filter (fun x => ms ≤ x.avg_score)
  let sorted := List.insertionSort (fun a b => b.avg_score ≤ a.avg_score) filtered
  (sorted.take limit, filtered.length)

instance : IsTotal SymbolAnalysis (fun a b => b.avg_score ≤ a.avg_score) :=
  ⟨fun a b => le_total b.avg_score a.avg_score⟩

instance : IsTrans SymbolAnalysis (fun a b => b.avg_score ≤ a.avg_score) :=
  ⟨fun _ _ _ h1 h2 => le_trans h2 h1⟩

/-- C7: with a min score specified, the response list is the `limit`-prefix of
a descending-by-`avg_score` reordering of exactly the symbols whose `avg_score`
is at least the min score, and `total` counts those symbols before truncation. -/
theorem filterRank_filters_sorts_truncates (analyzed : List SymbolAnalysis)
    (ms : ℚ) (limit : ℕ) :
    ∃ sorted : List SymbolAnalysis,
      sorted.Perm (analyzed.filter (fun x => ms ≤ x.avg_score)) ∧
      sorted.Sorted (fun a b => b.avg_score ≤ a.avg_score) ∧
      (filterRank analyzed (some ms) limit).1 = sorted.take limit ∧
      (filterRank analyzed (some ms) limit).2 =
        (analyzed.filter (fun x => ms ≤ x.avg_score)).length :=
  ⟨List.insertionSort (fun a b => b.avg_score ≤ a.avg_score)
      (analyzed.filter (fun x => ms ≤ x.avg_score)),
    List.perm_insertionSort _ _, List.sorted_insertionSort _ _, rfl, rfl⟩

theorem insertTF_of_not_mem (m : List (String × Analysis)) (k : String) (v : Analysis)
    (h : ∀ p ∈ m, p.1 ≠ k) : insertTF m k v = m ++ [(k, v)] := by
  rw [insertTF, if_neg]
  intro hc
  rw [List.any_eq_true] at hc
  obtain ⟨p, hp, he⟩ := hc
  exact h p hp (of_decide_eq_true he)

theorem map_fst_filterMap_if {β : Type} (l : List String) (c : String → Bool)
    (f : String → β) :
    (l.filterMap (fun tf => if c tf then some (tf, f tf) else none)).map Prod.fst
      = l.filter c := by
  induction l with
  | nil => rfl
  | cons x xs ih =>
    by_cases hx : c x = true
    · simp [List.filterMap_cons, List.filter_cons, hx, ih]
    · simp [List.filterMap_cons, List.filter_cons, hx, ih]

theorem analyzeTFs_ok (lib : TILib)
    (fetch : String → String → Except String (List KlineRow)) (sym : String) :
    ∀ (tfs : List String) (acc res : List (String × Analysis)),
      tfs.Nodup →
      (∀ tf ∈ tfs, ∀ p ∈ acc, p.1 ≠ tf) →
      analyzeTFs lib fetch sym tfs acc = .ok res →
      res = acc ++ tfs.filterMap (fun tf =>
        if usable fetch sym tf then some (tf, fetchedAnalysis lib fetch sym tf)
        else none) := by
  intro tfs
  induction tfs with
  | nil =>
    intro acc res _ _ h
    injection h with h
    simp [h]
  | cons tf rest ih =>
    intro acc res hnd hdisj h
    simp only [analyzeTFs] at h
    rcases hf : fetch sym tf with e | kl
    · rw [hf] at h
      exact absurd h (by simp)
    · rw [hf] at h
      dsimp only at h
      by_cases hkl : kl.length = 0
      · rw [if_pos hkl] at h
        have husable : usable fetch sym tf = false := by
          rw [usable, hf]
          simp [hkl]
        have hres := ih acc res (List.Nodup.of_cons hnd)
          (fun t ht p hp => hdisj t (List.mem_cons_of_mem _ ht) p hp) h
        rw [hres, List.filterMap_cons, husable]
        simp
      · rw [if_neg hkl] at h
        have husable : usable fetch sym tf = true := by
          rw [usable, hf]
          simp [hkl]
        have hfa : fetchedAnalysis lib fetch sym tf =
            mkAnalysis sym tf (computeIndicators lib
              (kl.map (fun k => k.close)) (kl.map (fun k => k.volume))) := by
          rw [fetchedAnalysis, hf]
        have hins : insertTF acc tf
            (mkAnalysis sym tf (computeIndicators lib
              (kl.map (fun k => k.close)) (kl.map (fun k => k.volume)))) =
            acc ++ [(tf, mkAnalysis sym tf (computeIndicators lib
              (kl.map (fun k => k.close)) (kl.map (fun k => k.volume))))] :=
          insertTF_of_not_mem acc tf _ (fun p hp => hdisj tf (List.mem_cons_self tf rest) p hp)
        rw [hins] at h
        have htf_not : tf ∉ rest := (List.nodup_cons.mp hnd).1
        have hres := ih (acc ++ [(tf, mkAnalysis sym tf (computeIndicators lib
            (kl.map (fun k => k.close)) (kl.map (fun k => k.volume))))]) res
          (List.Nodup.of_cons hnd) ?_ h
        · rw [hres, List.filterMap_cons, husable, hfa]
          simp
        · intro t ht p hp
          rcases List.mem_append.mp hp with hp | hp
          · exact hdisj t (List.mem_cons_of_mem _ ht) p hp
          · rcases List.mem_singleton.mp hp with rfl
            intro hcontra
            have heq : tf = t := hcontra
            subst heq
            exact htf_not ht

/-- C3: for every symbol entry in a successful analyze batch, its average score
is the arithmetic mean (sum over count) of the per-timeframe total scores of
exactly the timeframes it holds, the timeframes it holds are exactly the
requested ones with a usable (non-empty) candle series, and the entry is never
timeframe-less — symbols with zero usable timeframes are dropped. -/
theorem analyzeBatch_avg_and_membership (lib : TILib)
    (fetch : String → String → Except String (List KlineRow))
    (tfs : List String) (hnd : tfs.Nodup) :
    ∀ (syms : List (String × ℚ)) (out : List SymbolAnalysis),
      analyzeBatch lib fetch tfs syms = .ok out →
      ∀ a ∈ out,
        a.avg_score =
          (a.timeframes.map (fun p => p.2.total_score)).sum / a.timeframes.length ∧
        a.timeframes.map Prod.fst = tfs.filter (fun tf => usable fetch a.symbol tf) ∧
        a.timeframes ≠ [] := by
  intro syms
  induction syms with
  | nil =>
    intro out h a ha
    injection h with h
    rw [← h] at ha
    exact absurd ha (List.not_mem_nil a)
  | cons s rest ih =>
    intro out h a ha
    obtain ⟨sym, vol⟩ := s
    simp only [analyzeBatch] at h
    rcases ht : analyzeTFs lib fetch sym tfs [] with e | tfr
    · rw [ht] at h
      exact absurd h (by simp)
    · rw [ht] at h
      dsimp only at h
      rcases hb : analyzeBatch lib fetch tfs rest with e | tail
      · rw [hb] at h
        exact absurd h (by simp)
      · rw [hb] at h
        dsimp only at h
        by_cases hz : tfr.length = 0
        · rw [if_pos hz] at h
          injection h with h
          rw [← h] at ha
          exact ih tail hb a ha
        · rw [if_neg hz] at h
          injection h with h
          rw [← h] at ha
          rcases List.mem_cons.mp ha with rfl | hatail
          · have hkeys := analyzeTFs_ok lib fetch sym tfs [] tfr hnd
              (fun t _ p hp => absurd hp (List.not_mem_nil p)) ht
            refine ⟨rfl, ?_, ?_⟩
            · show tfr.map Prod.fst = tfs.filter (fun tf => usable fetch sym tf)
              rw [hkeys, List.nil_append]
              exact map_fst_filterMap_if tfs (fun tf => usable fetch sym tf)
                (fun tf => fetchedAnalysis lib fetch sym tf)
            · show tfr ≠ []
              intro hemp
              rw [hemp] at hz
              exact hz rfl
          · exact ih tail hb a hatail

/-- A trivial stand-in for the external indicator library, used in witnesses:
it returns empty RSI and MACD arrays. -/
def trivLib : TILib := ⟨fun _ => [], fun _ => []⟩

/-- Witness fixture: a provider returning a single fixed candle on the 15m
timeframe and an empty candle list otherwise. -/
def oneCandleFetch : String → String → Except String (List KlineRow) :=
  fun _ tf => if tf = "15m" then .ok [⟨0, 0, 0, 0, 1, 2⟩] else .ok []

/-- The analyze batch of the witness fixture. -/
def outW : List SymbolAnalysis :=
  (analyzeBatch trivLib oneCandleFetch ["15m", "1h"] [("BTCUSDT", 5)]).toOption.getD []

set_option maxRecDepth 100000 in
/-- Witness for C3: one symbol, timeframes 15m and 1h, of which only 15m has
data; the entry's average equals its single total score, its map holds exactly
the 15m key, and it is non-empty. -/
theorem analyzeBatch_avg_and_membership_witness :
    (outW.getD 0 ⟨"", 0, [], 0⟩).avg_score =
      (((outW.getD 0 ⟨"", 0, [], 0⟩).timeframes.map (fun p => p.2.total_score)).sum /
        (outW.getD 0 ⟨"", 0, [], 0⟩).timeframes.length) ∧
    (outW.getD 0 ⟨"", 0, [], 0⟩).timeframes.map Prod.fst =
      (["15m", "1h"].filter
        (fun tf => usable oneCandleFetch (outW.getD 0 ⟨"", 0, [], 0⟩).symbol tf)) ∧
    (outW.getD 0 ⟨"", 0, [], 0⟩).timeframes ≠ [] :=
  analyzeBatch_avg_and_membership trivLib oneCandleFetch ["15m", "1h"] (by decide)
    [("BTCUSDT", 5)] outW rfl (outW.getD 0 ⟨"", 0, [], 0⟩) (by decide)

/-- Witness fixture for the failure-propagation evaluation: a provider whose
fetch rejects for BTCUSDT and returns one candle for any other symbol. -/
def errFetch : String → String → Except String (List KlineRow) :=
  fun sym _ =>
    if sym = "BTCUSDT" then .error "network error"
    else .ok [⟨0, 0, 0, 0, 1, 2⟩]

/-- C4 is violated by the code: the per-unit loop has no exception guard, so a
single rejected fetch (here BTCUSDT at 15m) propagates out of the whole batch —
the healthy second symbol is lost and the analyzer surfaces an error instead of
skipping the failed unit. -/
theorem analyzeBatch_aborts_on_fetch_error :
    analyzeBatch trivLib errFetch ["15m"] [("BTCUSDT", 5), ("ETHUSDT", 3)] =
      .error "network error" := rfl

/-- C10: whenever the trailing 20-candle volume moving average is zero (for
example on an empty or all-zero volume series), `computeIndicators` defines
`volumeRatio` to be 1 instead of dividing by zero, the volume sub-score at that
ratio is 0, and the scorer still produces a total score with its classified
signal. -/
theorem computeIndicators_volMa_zero (lib : TILib) (closes volumes : List ℚ)
    (h : volMaOf volumes = 0) :
    (computeIndicators lib closes volumes).volumeRatio = 1 ∧
    volumeScoreSpec (computeIndicators lib closes volumes).volumeRatio = 0 ∧
    (computeIndicators lib closes volumes).signal =
      classifySignal (computeIndicators lib closes volumes).totalScore := by
  have hvr : (computeIndicators lib closes volumes).volumeRatio = 1 := by
    simp only [computeIndicators, h]
    norm_num
  refine ⟨hvr, ?_, rfl⟩
  rw [hvr, volumeScoreSpec]
  norm_num

/-- Witness for C10: one close, empty volume series. -/
theorem computeIndicators_volMa_zero_witness :
    (computeIndicators trivLib [1] []).volumeRatio = 1 ∧
    volumeScoreSpec (computeIndicators trivLib [1] []).volumeRatio = 0 ∧
    (computeIndicators trivLib [1] []).signal =
      classifySignal (computeIndicators trivLib [1] []).totalScore :=
  computeIndicators_volMa_zero trivLib [1] [] (by decide)

end Crypme
